import Mathlib

/-!
Verification of the inverted-wave interference simulator (`src/main.py`).

The numerical core of the program is embedded shallowly over the reals:

* `time_delay_sec` — main.py line 52: `length / (speed_of_sound + 1e-9)`.
* `t` — main.py line 61: `np.linspace(0, 0.050, 1000)`, sample `i`.
* `wave1`, `wave2`, `wave3` — main.py lines 67/72/75 (the same formulas are
  reused for `wave1_sweep`/`wave2_sweep`/`wave3_sweep` at lines 153/156/159).
* `df_wide` — the time-domain table built at line 80 (time plus three waves).
* `freq_range` — line 136: `np.linspace(20, 500, 481)`.
* `t_sweep` — line 140: `np.linspace(0, 0.1, 1000)`.
* `rms_ref` — line 144: `1 / np.sqrt(2)`.
* `rms_wave3` — line 162: `np.sqrt(np.mean(np.square(wave3_sweep)))`.
* `spl` — line 166: `20 * np.log10((rms_wave3 + 1e-9) / rms_ref)`.
* `calculate_frequency_response` — lines 128–171: the 481-row sweep table.

numpy's `linspace(a, b, n)` places point `i` at `a + (b - a) * i / (n - 1)`,
inclusive of both endpoints; `np.mean` over 1000 samples is the sum divided
by 1000.  Machine floats are modelled by exact reals.
-/

noncomputable section

namespace InvertedWave

open Real

/-- `np.linspace a b n` evaluated at index `i`: evenly spaced points over
`[a, b]` inclusive of both endpoints. -/
def linspace (a b : ℝ) (n : ℕ) (i : ℕ) : ℝ :=
  a + (b - a) * i / (n - 1)

/-- main.py line 52: `time_delay_sec = length / (speed_of_sound + 1e-9)`. -/
def time_delay_sec (length speed_of_sound : ℝ) : ℝ :=
  length / (speed_of_sound + 1e-9)

/-- main.py line 61: `t = np.linspace(0, 0.050, 1000)`, sample `i`. -/
def t (i : ℕ) : ℝ := linspace 0 0.050 1000 i

/-- main.py line 64: `omega = 2 * np.pi * frequency`. -/
def omega (frequency : ℝ) : ℝ := 2 * Real.pi * frequency

/-- main.py line 67: `wave1 = 1 * np.sin(omega * t)`, at time `time`. -/
def wave1 (frequency time : ℝ) : ℝ :=
  1 * Real.sin (omega frequency * time)

/-- main.py line 72: `wave2 = -1 * np.sin(omega * (t - time_delay_sec))`. -/
def wave2 (frequency delay time : ℝ) : ℝ :=
  -1 * Real.sin (omega frequency * (time - delay))

/-- main.py line 75: `wave3 = wave1 + wave2`. -/
def wave3 (frequency delay time : ℝ) : ℝ :=
  wave1 frequency time + wave2 frequency delay time

/-- A row of the time-domain table `df_wide` (main.py lines 80–85). -/
structure TimeSeriesSample where
  time : ℝ
  w1 : ℝ
  w2 : ℝ
  w3 : ℝ

/-- main.py lines 80–85: the wide time-domain table, one row per sample. -/
def df_wide (frequency delay : ℝ) : List TimeSeriesSample :=
  (List.range 1000).map fun i =>
    ⟨t i, wave1 frequency (t i), wave2 frequency delay (t i),
      wave3 frequency delay (t i)⟩

/-- main.py line 136: `freq_range = np.linspace(20, 500, 481)`, sample `j`. -/
def freq_range (j : ℕ) : ℝ := linspace 20 500 481 j

/-- main.py line 140: `t_sweep = np.linspace(0, 0.1, 1000)`, sample `i`. -/
def t_sweep (i : ℕ) : ℝ := linspace 0 0.1 1000 i

/-- main.py line 144: `rms_ref = 1 / np.sqrt(2)`. -/
def rms_ref : ℝ := 1 / Real.sqrt 2

/-- main.py line 162: `rms_wave3 = np.sqrt(np.mean(np.square(wave3_sweep)))`,
where `wave3_sweep` is `wave3` sampled on `t_sweep` (lines 153–159 reuse the
formulas of lines 67–75). -/
def rms_wave3 (delay f : ℝ) : ℝ :=
  Real.sqrt ((∑ i ∈ Finset.range 1000, (wave3 f delay (t_sweep i)) ^ 2) / 1000)

/-- main.py line 166: `spl = 20 * np.log10((rms_wave3 + 1e-9) / rms_ref)`. -/
def spl (delay f : ℝ) : ℝ :=
  20 * Real.logb 10 ((rms_wave3 delay f + 1e-9) / rms_ref)

/-- A row of the frequency-response table (main.py line 168). -/
structure FrequencyResponseSample where
  frequency : ℝ
  splDb : ℝ

/-- main.py lines 128–171: `calculate_frequency_response(delay, speed,
path_length)`.  `speed` and `path_length` appear only in the cache key of
`@st.cache_data`; the body uses `delay` alone. -/
def calculate_frequency_response (delay _speed _path_length : ℝ) :
    List FrequencyResponseSample :=
  (List.range 481).map fun j => ⟨freq_range j, spl delay (freq_range j)⟩

/- ### Helper lemmas -/

lemma wave3_eq (f d x : ℝ) :
    wave3 f d x = Real.sin (omega f * x) - Real.sin (omega f * x - omega f * d) := by
  simp only [wave3, wave1, wave2, one_mul, neg_one_mul, mul_sub]
  ring

/-- At a frequency–delay product that is an integer, the delayed inverted
copy cancels the original exactly at every instant. -/
lemma wave3_eq_zero_of_int_cycles (f d x : ℝ) (n : ℤ) (hn : f * d = n) :
    wave3 f d x = 0 := by
  have homega : omega f * d = n * (2 * Real.pi) := by
    simp only [omega]
    rw [show 2 * Real.pi * f * d = f * d * (2 * Real.pi) by ring, hn]
  rw [wave3_eq, homega, Real.sin_sub_int_mul_two_pi, sub_self]

/-- At a frequency–delay product that is a half-integer, the delayed inverted
copy reinforces the original: the sum doubles the first wave pointwise. -/
lemma wave3_eq_double_of_half_cycles (f d x : ℝ) (n : ℤ) (hn : f * d = n + 0.5) :
    wave3 f d x = 2 * wave1 f x := by
  have homega : omega f * d = Real.pi + n * (2 * Real.pi) := by
    simp only [omega]
    rw [show 2 * Real.pi * f * d = f * d * (2 * Real.pi) by ring, hn]
    ring
  rw [wave3_eq, homega,
    show Real.sin (omega f * x) = Real.sin (omega f * x) from rfl]
  rw [show omega f * x - (Real.pi + n * (2 * Real.pi))
        = omega f * x - Real.pi - n * (2 * Real.pi) by ring,
    Real.sin_sub_int_mul_two_pi, Real.sin_sub_pi]
  simp only [wave1, one_mul]
  ring

lemma getD_map_range {α : Type} (g : ℕ → α) (n i : ℕ) (hi : i < n) (dflt : α) :
    ((List.range n).map g).getD i dflt = g i := by
  rw [List.getD_eq_getElem?_getD, List.getElem?_map, List.getElem?_range hi]
  rfl

lemma t_eq (i : ℕ) : t i = 0.05 * i / 999 := by
  simp only [t, linspace]
  norm_num

lemma t_sweep_eq (i : ℕ) : t_sweep i = 0.1 * i / 999 := by
  simp only [t_sweep, linspace]
  norm_num

lemma freq_range_eq (j : ℕ) : freq_range j = 20 + j := by
  simp only [freq_range, linspace]
  norm_num

lemma wave3_at_zero (f d : ℝ) : wave3 f d 0 = Real.sin (omega f * d) := by
  rw [wave3_eq]
  simp

lemma rms_wave3_eq_zero (d f : ℝ) (n : ℤ) (hn : f * d = n) :
    rms_wave3 d f = 0 := by
  unfold rms_wave3
  have hz : ∀ i ∈ Finset.range 1000, (wave3 f d (t_sweep i)) ^ 2 = 0 := by
    intro i _
    rw [wave3_eq_zero_of_int_cycles f d _ n hn]
    ring
  rw [Finset.sum_congr rfl hz]
  simp

lemma spl_eq_floor_of_int_cycles (d f : ℝ) (n : ℤ) (hn : f * d = n) :
    spl d f = 20 * Real.logb 10 (1e-9 * Real.sqrt 2) := by
  unfold spl
  rw [rms_wave3_eq_zero d f n hn, rms_ref, zero_add, div_div_eq_mul_div,
    div_one]

lemma sqrt_two_lt_two : Real.sqrt 2 < 2 := by
  rw [Real.sqrt_lt' (by norm_num : (0:ℝ) < 2)]
  norm_num

lemma floor_spl_neg : 20 * Real.logb 10 (1e-9 * Real.sqrt 2) < 0 := by
  have h0 : (0:ℝ) < 1e-9 * Real.sqrt 2 := by positivity
  have h1 : (1e-9 : ℝ) * Real.sqrt 2 < 1 := by
    nlinarith [sqrt_two_lt_two, Real.sqrt_nonneg 2]
  have := Real.logb_neg (by norm_num : (1:ℝ) < 10) h0 h1
  nlinarith

lemma df_wide_getD (f d : ℝ) (i : ℕ) (hi : i < 1000) :
    (df_wide f d).getD i ⟨0, 0, 0, 0⟩
      = ⟨t i, wave1 f (t i), wave2 f d (t i), wave3 f d (t i)⟩ := by
  unfold df_wide
  exact getD_map_range _ 1000 i hi _

lemma cfr_getD (d s p : ℝ) (j : ℕ) (hj : j < 481) :
    (calculate_frequency_response d s p).getD j ⟨0, 0⟩
      = ⟨freq_range j, spl d (freq_range j)⟩ := by
  unfold calculate_frequency_response
  exact getD_map_range _ 481 j hj _

lemma abs_wave1_le_one (f x : ℝ) : |wave1 f x| ≤ 1 := by
  rw [wave1, one_mul]
  exact abs_le.mpr ⟨Real.neg_one_le_sin _, Real.sin_le_one _⟩

lemma abs_wave2_le_one (f d x : ℝ) : |wave2 f d x| ≤ 1 := by
  rw [wave2, neg_one_mul, abs_neg]
  exact abs_le.mpr ⟨Real.neg_one_le_sin _, Real.sin_le_one _⟩

lemma abs_wave3_le_two (f d x : ℝ) : |wave3 f d x| ≤ 2 := by
  rw [wave3]
  calc |wave1 f x + wave2 f d x| ≤ |wave1 f x| + |wave2 f d x| := abs_add _ _
    _ ≤ 2 := by linarith [abs_wave1_le_one f x, abs_wave2_le_one f d x]

lemma rms_wave3_le_two (d f : ℝ) : rms_wave3 d f ≤ 2 := by
  unfold rms_wave3
  have hterm : ∀ i ∈ Finset.range 1000, (wave3 f d (t_sweep i)) ^ 2 ≤ 4 := by
    intro i _
    have h := abs_wave3_le_two f d (t_sweep i)
    nlinarith [abs_nonneg (wave3 f d (t_sweep i)), sq_abs (wave3 f d (t_sweep i))]
  have hsum : (∑ i ∈ Finset.range 1000, (wave3 f d (t_sweep i)) ^ 2) ≤ 4000 := by
    calc (∑ i ∈ Finset.range 1000, (wave3 f d (t_sweep i)) ^ 2)
        ≤ ∑ _i ∈ Finset.range 1000, (4 : ℝ) := Finset.sum_le_sum hterm
      _ = 4000 := by
          simp
          norm_num
  have hdiv : (∑ i ∈ Finset.range 1000, (wave3 f d (t_sweep i)) ^ 2) / 1000
      ≤ 4 := by linarith
  calc Real.sqrt ((∑ i ∈ Finset.range 1000, (wave3 f d (t_sweep i)) ^ 2) / 1000)
      ≤ Real.sqrt 4 := Real.sqrt_le_sqrt hdiv
    _ = 2 := by
        rw [show (4 : ℝ) = 2 ^ 2 by norm_num, Real.sqrt_sq (by norm_num : (0:ℝ) ≤ 2)]

/- ### Claim theorems -/

/-- C3: the derived time delay equals `pathLength / (speedOfSound + 1e-9)`
for every path length and speed of sound, and for path length 0 the delay is
exactly 0 for any positive speed of sound. -/
theorem time_delay_formula (L v : ℝ) (_hv : 0 < v) :
    time_delay_sec L v = L / (v + 1e-9) ∧ time_delay_sec 0 v = 0 := by
  constructor
  · rfl
  · simp [time_delay_sec]

/-- Witness for C3 at the defaults path length 4.2875 m, speed 343 m/s. -/
theorem time_delay_formula_witness :
    time_delay_sec 4.2875 343 = 4.2875 / (343 + 1e-9) ∧
      time_delay_sec 0 343 = 0 :=
  time_delay_formula 4.2875 343 (by norm_num)

/-- C4: superposition holds exactly: every row of the time-domain table has
`w3 = w1 + w2`, and the sweep synthesis satisfies
`wave3 = wave1 + wave2` at every time, for all inputs. -/
theorem superposition_identity (f d : ℝ) (i : ℕ) (hi : i < 1000) (x : ℝ) :
    ((df_wide f d).getD i ⟨0, 0, 0, 0⟩).w3
        = ((df_wide f d).getD i ⟨0, 0, 0, 0⟩).w1
          + ((df_wide f d).getD i ⟨0, 0, 0, 0⟩).w2
      ∧ wave3 f d x = wave1 f x + wave2 f d x := by
  unfold df_wide
  rw [getD_map_range _ 1000 i hi]
  exact ⟨rfl, rfl⟩

/-- Witness for C4 at frequency 40, delay 0.0125, row 0, time 0. -/
theorem superposition_identity_witness :
    ((df_wide 40 0.0125).getD 0 ⟨0, 0, 0, 0⟩).w3
        = ((df_wide 40 0.0125).getD 0 ⟨0, 0, 0, 0⟩).w1
          + ((df_wide 40 0.0125).getD 0 ⟨0, 0, 0, 0⟩).w2
      ∧ wave3 40 0.0125 0 = wave1 40 0 + wave2 40 0.0125 0 :=
  superposition_identity 40 0.0125 0 (by norm_num) 0

/-- C5: with zero time delay the sum wave vanishes identically at every
time, for any frequency: the inverted copy cancels the original exactly. -/
theorem zero_delay_cancellation (f x : ℝ) : wave3 f 0 x = 0 := by
  rw [wave3_eq]
  simp

/-- C8: the frequency-response table is a pure function of the delay: two
invocations with equal delay but arbitrary speed-of-sound and path-length
arguments produce equal tables (identical tuples are the special case). -/
theorem freq_response_depends_only_on_delay (d s₁ p₁ s₂ p₂ : ℝ) :
    calculate_frequency_response d s₁ p₁ = calculate_frequency_response d s₂ p₂ :=
  rfl

/-- C6 counterexample: at delay τ = 0.05 s > 0 the frequency f = 1/τ = 20 Hz
(n = 1, inside the swept range) is NOT a constructive +6 dB peak: its SPL is
negative (in fact it sits at the ε floor), refuting the claim that peaks lie
at f = n/τ. -/
theorem comb_filter_counterexample :
    (0 : ℝ) < 0.05 ∧ (20 : ℝ) = 1 / 0.05 ∧ spl 0.05 20 < 0 := by
  refine ⟨by norm_num, by norm_num, ?_⟩
  rw [spl_eq_floor_of_int_cycles 0.05 20 1 (by norm_num)]
  exact floor_spl_neg

/-- C6 amended: for fixed delay τ > 0 the roles are swapped relative to the
claim: at f = n/τ (integer n) the sum wave is identically zero on the RMS
window, so the RMS is 0 and the SPL equals the ε floor
`20·log10(1e-9·√2)` (a large negative value); at f = (n + 0.5)/τ the sum
doubles the original wave pointwise (constructive, ≈ +6 dB). -/
theorem comb_filter_amended (τ : ℝ) (_hτ : 0 < τ) (n : ℤ) (f g : ℝ)
    (hf : f * τ = n) (hg : g * τ = n + 0.5) :
    rms_wave3 τ f = 0
      ∧ spl τ f = 20 * Real.logb 10 (1e-9 * Real.sqrt 2)
      ∧ spl τ f < 0
      ∧ ∀ x, wave3 g τ x = 2 * wave1 g x := by
  refine ⟨rms_wave3_eq_zero τ f n hf, spl_eq_floor_of_int_cycles τ f n hf, ?_, ?_⟩
  · rw [spl_eq_floor_of_int_cycles τ f n hf]
    exact floor_spl_neg
  · intro x
    exact wave3_eq_double_of_half_cycles g τ x n hg

/-- Witness for C6 amended: τ = 0.05 s, n = 1, null frequency f = 20 Hz,
peak frequency g = 30 Hz. -/
theorem comb_filter_amended_witness :
    rms_wave3 0.05 20 = 0
      ∧ spl 0.05 20 = 20 * Real.logb 10 (1e-9 * Real.sqrt 2)
      ∧ spl 0.05 20 < 0
      ∧ ∀ x, wave3 30 0.05 x = 2 * wave1 30 x :=
  comb_filter_amended 0.05 (by norm_num) 1 20 30 (by norm_num)
    (by push_cast; norm_num)

/-- C7 counterexample: with frequency 40 Hz, speed 343 m/s and path length
4.2875 m, the derived delay is NOT exactly 0.0125 s (the 1e-9 guard in the
denominator shifts it), and the sum wave is NOT zero at the first sample
point t = 0. -/
theorem concrete_scenario_counterexample :
    time_delay_sec 4.2875 343 ≠ 0.0125
      ∧ wave3 40 (time_delay_sec 4.2875 343) 0 ≠ 0 := by
  constructor
  · unfold time_delay_sec
    intro h
    rw [div_eq_iff (by norm_num : (343 : ℝ) + 1e-9 ≠ 0)] at h
    norm_num at h
  · rw [wave3_at_zero]
    have harg : omega 40 * time_delay_sec 4.2875 343
        = Real.pi * (343 / (343 + 1e-9)) := by
      unfold omega time_delay_sec
      rw [div_eq_mul_inv, div_eq_mul_inv]
      ring
    rw [harg]
    have hr0 : (0 : ℝ) < 343 / (343 + 1e-9) := by positivity
    have hr1 : (343 : ℝ) / (343 + 1e-9) < 1 := by
      rw [div_lt_one (by norm_num : (0 : ℝ) < 343 + 1e-9)]
      norm_num
    have hpos : 0 < Real.sin (Real.pi * (343 / (343 + 1e-9))) := by
      apply Real.sin_pos_of_pos_of_lt_pi
      · positivity
      · calc Real.pi * (343 / (343 + 1e-9)) < Real.pi * 1 := by
              exact mul_lt_mul_of_pos_left hr1 Real.pi_pos
          _ = Real.pi := mul_one _
    exact ne_of_gt hpos

/-- C7 amended: with frequency 40 Hz, speed 343 m/s and path length
4.2875 m the derived delay is 4.2875/(343 + 1e-9), strictly between
0.01249 s and 0.0125 s (approximately, but not exactly, half the 25 ms
period); the sum wave does not cancel — it is strictly positive at the
first sample point — and at a delay of exactly 0.0125 s the sum would be
2·sin(2π·40·t) pointwise: full constructive doubling, not destructive
cancellation. -/
theorem concrete_scenario_amended :
    0.01249 < time_delay_sec 4.2875 343
      ∧ time_delay_sec 4.2875 343 < 0.0125
      ∧ 0 < wave3 40 (time_delay_sec 4.2875 343) 0
      ∧ ∀ x, wave3 40 0.0125 x = 2 * wave1 40 x := by
  refine ⟨?_, ?_, ?_, ?_⟩
  · unfold time_delay_sec
    rw [lt_div_iff₀ (by norm_num : (0 : ℝ) < 343 + 1e-9)]
    norm_num
  · unfold time_delay_sec
    rw [div_lt_iff₀ (by norm_num : (0 : ℝ) < 343 + 1e-9)]
    norm_num
  · rw [wave3_at_zero]
    have harg : omega 40 * time_delay_sec 4.2875 343
        = Real.pi * (343 / (343 + 1e-9)) := by
      unfold omega time_delay_sec
      rw [div_eq_mul_inv, div_eq_mul_inv]
      ring
    rw [harg]
    have hr1 : (343 : ℝ) / (343 + 1e-9) < 1 := by
      rw [div_lt_one (by norm_num : (0 : ℝ) < 343 + 1e-9)]
      norm_num
    apply Real.sin_pos_of_pos_of_lt_pi
    · positivity
    · calc Real.pi * (343 / (343 + 1e-9)) < Real.pi * 1 :=
            mul_lt_mul_of_pos_left hr1 Real.pi_pos
        _ = Real.pi := mul_one _
  · intro x
    exact wave3_eq_double_of_half_cycles 40 0.0125 x 0 (by push_cast; norm_num)

/-- C1: the time-domain synthesis produces exactly 1000 rows; row times run
linearly from 0 to 0.050 inclusive; and row `i` holds
`wave1 = sin(2π·f·tᵢ)` and `wave2 = -sin(2π·f·(tᵢ - delay))` with unit
amplitude, for every frequency and every delay. -/
theorem time_domain_synthesis (f d : ℝ) :
    (df_wide f d).length = 1000
      ∧ ((df_wide f d).getD 0 ⟨0, 0, 0, 0⟩).time = 0
      ∧ ((df_wide f d).getD 999 ⟨0, 0, 0, 0⟩).time = 0.050
      ∧ ∀ i : ℕ, i < 1000 →
          (df_wide f d).getD i ⟨0, 0, 0, 0⟩ =
            ⟨0.05 * i / 999,
             Real.sin (2 * Real.pi * f * (0.05 * i / 999)),
             -Real.sin (2 * Real.pi * f * (0.05 * i / 999 - d)),
             Real.sin (2 * Real.pi * f * (0.05 * i / 999))
               + -Real.sin (2 * Real.pi * f * (0.05 * i / 999 - d))⟩ := by
  refine ⟨?_, ?_, ?_, ?_⟩
  · unfold df_wide
    rw [List.length_map, List.length_range]
  · rw [df_wide_getD f d 0 (by norm_num)]
    show t 0 = 0
    rw [t_eq]
    norm_num
  · rw [df_wide_getD f d 999 (by norm_num)]
    show t 999 = 0.050
    rw [t_eq]
    norm_num
  · intro i hi
    rw [df_wide_getD f d i hi, t_eq]
    simp only [wave3, wave1, wave2, omega, one_mul, neg_one_mul]

/-- Witness for C1 at frequency 40, delay 0, row 0. -/
theorem time_domain_synthesis_witness :
    (df_wide 40 0).length = 1000
      ∧ (df_wide 40 0).getD 0 ⟨0, 0, 0, 0⟩ =
          ⟨0.05 * ((0 : ℕ) : ℝ) / 999,
           Real.sin (2 * Real.pi * 40 * (0.05 * ((0 : ℕ) : ℝ) / 999)),
           -Real.sin (2 * Real.pi * 40 * (0.05 * ((0 : ℕ) : ℝ) / 999 - 0)),
           Real.sin (2 * Real.pi * 40 * (0.05 * ((0 : ℕ) : ℝ) / 999))
             + -Real.sin (2 * Real.pi * 40 * (0.05 * ((0 : ℕ) : ℝ) / 999 - 0))⟩ :=
  ⟨(time_domain_synthesis 40 0).1,
   (time_domain_synthesis 40 0).2.2.2 0 (by norm_num)⟩

/-- C2: the sweep table has 481 rows; the RMS window spans 0 to 0.1 s over
1000 samples; and row `j` pairs the frequency `20 + j` with
`20·log10((√(mean(wave3²)) + 1e-9) / (1/√2))`, the reference RMS `1/√2`
being the fixed analytic value. -/
theorem frequency_response_spec (d s p : ℝ) :
    (calculate_frequency_response d s p).length = 481
      ∧ t_sweep 0 = 0 ∧ t_sweep 999 = 0.1
      ∧ ∀ j : ℕ, j < 481 →
          (calculate_frequency_response d s p).getD j ⟨0, 0⟩ =
            ⟨20 + j,
             20 * Real.logb 10
               ((Real.sqrt ((∑ i ∈ Finset.range 1000,
                     (Real.sin (2 * Real.pi * (20 + j) * (0.1 * i / 999))
                       + -Real.sin (2 * Real.pi * (20 + j) * (0.1 * i / 999 - d))) ^ 2)
                   / 1000) + 1e-9) / (1 / Real.sqrt 2))⟩ := by
  refine ⟨?_, ?_, ?_, ?_⟩
  · unfold calculate_frequency_response
    rw [List.length_map, List.length_range]
  · rw [t_sweep_eq]
    norm_num
  · rw [t_sweep_eq]
    norm_num
  · intro j hj
    rw [cfr_getD d s p j hj, freq_range_eq]
    simp only [spl, rms_wave3, rms_ref, wave3, wave1, wave2, omega, one_mul,
      neg_one_mul, t_sweep_eq]

/-- Witness for C2 at delay 0.0125, speed 343, path 4.2875, row 0. -/
theorem frequency_response_spec_witness :
    (calculate_frequency_response 0.0125 343 4.2875).length = 481
      ∧ (calculate_frequency_response 0.0125 343 4.2875).getD 0 ⟨0, 0⟩ =
          ⟨20 + ((0 : ℕ) : ℝ),
           20 * Real.logb 10
             ((Real.sqrt ((∑ i ∈ Finset.range 1000,
                   (Real.sin (2 * Real.pi * (20 + ((0 : ℕ) : ℝ)) * (0.1 * i / 999))
                     + -Real.sin (2 * Real.pi * (20 + ((0 : ℕ) : ℝ))
                         * (0.1 * i / 999 - 0.0125))) ^ 2)
                 / 1000) + 1e-9) / (1 / Real.sqrt 2))⟩ :=
  ⟨(frequency_response_spec 0.0125 343 4.2875).1,
   (frequency_response_spec 0.0125 343 4.2875).2.2.2 0 (by norm_num)⟩

/-- C9: the time axis is strictly increasing with constant step 0.05/999
over 1000 points from 0 to 0.05 s, and the frequency axis is strictly
increasing with constant step 1 Hz over the 481 points 20..500 Hz. -/
theorem monotonic_axes (f d s p : ℝ) :
    (df_wide f d).length = 1000
      ∧ ((df_wide f d).getD 0 ⟨0, 0, 0, 0⟩).time = 0
      ∧ ((df_wide f d).getD 999 ⟨0, 0, 0, 0⟩).time = 0.05
      ∧ (∀ i : ℕ, i + 1 < 1000 →
          ((df_wide f d).getD (i + 1) ⟨0, 0, 0, 0⟩).time
            - ((df_wide f d).getD i ⟨0, 0, 0, 0⟩).time = 0.05 / 999)
      ∧ (∀ i : ℕ, i + 1 < 1000 →
          ((df_wide f d).getD i ⟨0, 0, 0, 0⟩).time
            < ((df_wide f d).getD (i + 1) ⟨0, 0, 0, 0⟩).time)
      ∧ (calculate_frequency_response d s p).length = 481
      ∧ ((calculate_frequency_response d s p).getD 0 ⟨0, 0⟩).frequency = 20
      ∧ ((calculate_frequency_response d s p).getD 480 ⟨0, 0⟩).frequency = 500
      ∧ (∀ j : ℕ, j + 1 < 481 →
          ((calculate_frequency_response d s p).getD (j + 1) ⟨0, 0⟩).frequency
            - ((calculate_frequency_response d s p).getD j ⟨0, 0⟩).frequency = 1)
      ∧ (∀ j : ℕ, j + 1 < 481 →
          ((calculate_frequency_response d s p).getD j ⟨0, 0⟩).frequency
            < ((calculate_frequency_response d s p).getD (j + 1) ⟨0, 0⟩).frequency) := by
  refine ⟨?_, ?_, ?_, ?_, ?_, ?_, ?_, ?_, ?_, ?_⟩
  · unfold df_wide
    rw [List.length_map, List.length_range]
  · rw [df_wide_getD f d 0 (by norm_num)]
    show t 0 = 0
    rw [t_eq]
    norm_num
  · rw [df_wide_getD f d 999 (by norm_num)]
    show t 999 = 0.05
    rw [t_eq]
    norm_num
  · intro i hi
    rw [df_wide_getD f d (i + 1) hi, df_wide_getD f d i (by omega)]
    show t (i + 1) - t i = 0.05 / 999
    rw [t_eq, t_eq]
    push_cast
    ring
  · intro i hi
    rw [df_wide_getD f d (i + 1) hi, df_wide_getD f d i (by omega)]
    show t i < t (i + 1)
    rw [t_eq, t_eq]
    push_cast
    have h0 : (0 : ℝ) ≤ (i : ℝ) := Nat.cast_nonneg i
    nlinarith
  · unfold calculate_frequency_response
    rw [List.length_map, List.length_range]
  · rw [cfr_getD d s p 0 (by norm_num)]
    show freq_range 0 = 20
    rw [freq_range_eq]
    norm_num
  · rw [cfr_getD d s p 480 (by norm_num)]
    show freq_range 480 = 500
    rw [freq_range_eq]
    norm_num
  · intro j hj
    rw [cfr_getD d s p (j + 1) hj, cfr_getD d s p j (by omega)]
    show freq_range (j + 1) - freq_range j = 1
    rw [freq_range_eq, freq_range_eq]
    push_cast
    ring
  · intro j hj
    rw [cfr_getD d s p (j + 1) hj, cfr_getD d s p j (by omega)]
    show freq_range j < freq_range (j + 1)
    rw [freq_range_eq, freq_range_eq]
    push_cast
    linarith

/-- Witness for C9: first time step and first frequency step, at
frequency 40, delay 0, speed 343, path 0. -/
theorem monotonic_axes_witness :
    ((df_wide 40 0).getD 1 ⟨0, 0, 0, 0⟩).time
        - ((df_wide 40 0).getD 0 ⟨0, 0, 0, 0⟩).time = 0.05 / 999
      ∧ ((calculate_frequency_response 0 343 0).getD 1 ⟨0, 0⟩).frequency
          - ((calculate_frequency_response 0 343 0).getD 0 ⟨0, 0⟩).frequency = 1 :=
  ⟨(monotonic_axes 40 0 343 0).2.2.2.1 0 (by norm_num),
   (monotonic_axes 40 0 343 0).2.2.2.2.2.2.2.2.1 0 (by norm_num)⟩

/-- C10: implicit amplitude bounds — each source wave stays within [-1, 1],
the sum within [-2, 2], every RMS value is at most 2, and every SPL value is
at most `20·log10((2 + 1e-9)/(1/√2))`. -/
theorem amplitude_bounds (f d x : ℝ) :
    |wave1 f x| ≤ 1 ∧ |wave2 f d x| ≤ 1 ∧ |wave3 f d x| ≤ 2
      ∧ rms_wave3 d f ≤ 2
      ∧ spl d f ≤ 20 * Real.logb 10 ((2 + 1e-9) / rms_ref) := by
  refine ⟨abs_wave1_le_one f x, abs_wave2_le_one f d x, abs_wave3_le_two f d x,
    rms_wave3_le_two d f, ?_⟩
  have href : (0 : ℝ) < rms_ref := by
    rw [rms_ref]
    positivity
  have hrms0 : 0 ≤ rms_wave3 d f := Real.sqrt_nonneg _
  have harg0 : 0 < (rms_wave3 d f + 1e-9) / rms_ref := by
    apply div_pos _ href
    linarith
  have hargle : (rms_wave3 d f + 1e-9) / rms_ref ≤ (2 + 1e-9) / rms_ref := by
    apply div_le_div_of_nonneg_right _ href.le
    linarith [rms_wave3_le_two d f]
  unfold spl
  apply mul_le_mul_of_nonneg_left _ (by norm_num : (0 : ℝ) ≤ 20)
  exact Real.logb_le_logb_of_le (by norm_num : (1 : ℝ) < 10) harg0 hargle

end InvertedWave
